import Mathlib

/-!
# Verification of the `snail-init` scaffolder

A shallow embedding of `src/index.ts` of the `snail-init` project: the pure
name transforms (`toSlug`, `toDisplayName`), the destination guard
(`ensureDirectoryIsEmpty`), the template renderer (the program's use of
`Handlebars.compile` with default options), the recursive tree materializer
(`copyTemplateTree`) and the orchestrating `createProjectFlow`.

Strings are modelled as `String` over `List Char`; the JavaScript regular
expressions of the source are translated into explicit run-collapsing
recursions; the filesystem effects of `copyTemplateTree` are modelled as the
ordered trace of `mkdir`/`writeFile` calls the walk performs.  JavaScript's
`toLowerCase`/`toUpperCase` are modelled by the ASCII `Char.toLower`/
`Char.toUpper`, and `\s`/`trim()` whitespace by `Char.isWhitespace`; none of
the properties proved here depend on the non-ASCII corners where those differ.
-/

/-! ## Character classes -/

/-- The character class `[a-z0-9]` of `toSlug`'s regexes (`src/index.ts:264`),
stated on code points: `a`-`z` is 97-122 and `0`-`9` is 48-57. -/
def isSlugChar (c : Char) : Bool :=
  (97 ≤ c.toNat && c.toNat ≤ 122) || (48 ≤ c.toNat && c.toNat ≤ 57)

/-- The character class `[_-]` of `toDisplayName`'s first regex
(`src/index.ts:247`). -/
def isUnderscoreOrHyphen (c : Char) : Bool :=
  c = '_' || c = '-'

/-- The separator class of the specification's description of
`toDisplayName`: hyphen, underscore or whitespace. -/
def isWordSeparator (c : Char) : Bool :=
  c = '-' || c = '_' || c.isWhitespace

/-! ## Generic trimming helpers -/

/-- Length never grows under `dropWhile`; needed for the termination of the
run-collapsing recursions below. -/
theorem dropWhile_length_le (p : Char → Bool) :
    ∀ l : List Char, (l.dropWhile p).length ≤ l.length := by
  intro l
  induction l with
  | nil => simp
  | cons c rest ih =>
    by_cases h : p c <;> simp [List.dropWhile, h]
    omega

/-- Removal of the maximal trailing run of characters satisfying `p`: the
`-+$` half of `toSlug`'s trim regex, and the trailing half of `trim()`. -/
def dropTrailing (p : Char → Bool) : List Char → List Char
  | [] => []
  | c :: rest =>
    if (dropTrailing p rest).isEmpty && p c then [] else c :: dropTrailing p rest

/-- JavaScript's `String.prototype.trim()` (whitespace from both ends),
as used at `src/index.ts:193` and `src/index.ts:262`. -/
def trimChars (l : List Char) : List Char :=
  dropTrailing Char.isWhitespace (l.dropWhile Char.isWhitespace)

/-! ## The slug transform (`toSlug`, `src/index.ts:260-267`) -/

/-- The global replace `.replace(/[^a-z0-9]+/g, "-")`: every maximal run of
characters outside `[a-z0-9]` becomes a single hyphen. -/
def collapseOutsideSlug : List Char → List Char
  | [] => []
  | c :: rest =>
    if isSlugChar c then c :: collapseOutsideSlug rest
    else '-' :: collapseOutsideSlug (rest.dropWhile fun d => !isSlugChar d)
termination_by l => l.length
decreasing_by
  · simp
  · have := dropWhile_length_le (fun d => !isSlugChar d) rest
    simp
    omega

/-- The global replace `.replace(/^-+|-+$/g, "")`: leading and trailing
hyphen runs removed. -/
def trimHyphens (l : List Char) : List Char :=
  (dropTrailing (fun c => c = '-') l).dropWhile fun c => c = '-'

/-- The `toSlug` function of `src/index.ts:260-267`: trim, lowercase,
collapse runs outside `[a-z0-9]` to single hyphens, trim hyphens, and fall
back to `"snail-plugin"` when nothing remains (`slug || "snail-plugin"`). -/
def toSlug (value : String) : String :=
  let slug := trimHyphens (collapseOutsideSlug ((trimChars value.data).map Char.toLower))
  if slug.isEmpty then "snail-plugin" else String.mk slug

/-- The slug transform exactly as the specification words it: lowercase the
string, replace every maximal run of characters outside `[a-z0-9]` with a
single hyphen, trim leading/trailing hyphens, and return the fixed fallback
slug `"snail-plugin"` when the result is empty.  (The specification does not
mention the initial whitespace `trim()`; the equality with `toSlug` is a
theorem below.) -/
def toSlugSpec (value : String) : String :=
  let slug := trimHyphens (collapseOutsideSlug (value.data.map Char.toLower))
  if slug.isEmpty then "snail-plugin" else String.mk slug

/-- Deterministic matcher for the regular expression
`^[a-z0-9]+(-[a-z0-9]+)*$` of the specification.  The boolean state records
whether a fresh `[a-z0-9]+` group must start at the current position (true
initially and right after each `-`); within a group a hyphen opens the next
group. -/
def slugShapeAux : List Char → Bool → Bool
  | [], expectStart => !expectStart
  | c :: rest, true => isSlugChar c && slugShapeAux rest false
  | c :: rest, false =>
    if c = '-' then slugShapeAux rest true
    else isSlugChar c && slugShapeAux rest false

/-- Whether a character list matches `^[a-z0-9]+(-[a-z0-9]+)*$`. -/
def matchesSlugShape (l : List Char) : Bool :=
  slugShapeAux l true

/-! ## The display-name transform (`toDisplayName`, `src/index.ts:245-258`) -/

/-- The global replace `.replace(/[_-]+/g, " ")`: maximal `[_-]` runs become
one space, all other characters stay. -/
def replaceUnderscoreHyphenRuns : List Char → List Char
  | [] => []
  | c :: rest =>
    if isUnderscoreOrHyphen c then
      ' ' :: replaceUnderscoreHyphenRuns (rest.dropWhile isUnderscoreOrHyphen)
    else c :: replaceUnderscoreHyphenRuns rest
termination_by l => l.length
decreasing_by
  · have := dropWhile_length_le isUnderscoreOrHyphen rest
    simp
    omega
  · simp

/-- The global replace `.replace(/\s+/g, " ")`: maximal whitespace runs
become one space. -/
def replaceWhitespaceRuns : List Char → List Char
  | [] => []
  | c :: rest =>
    if c.isWhitespace then
      ' ' :: replaceWhitespaceRuns (rest.dropWhile Char.isWhitespace)
    else c :: replaceWhitespaceRuns rest
termination_by l => l.length
decreasing_by
  · have := dropWhile_length_le Char.isWhitespace rest
    simp
    omega
  · simp

/-- JavaScript's `.split(" ")`: cut at every single space character, keeping
empty segments (`"".split(" ")` is `[""]`). -/
def splitSpace : List Char → List (List Char)
  | [] => [[]]
  | ' ' :: rest => [] :: splitSpace rest
  | c :: rest =>
    match splitSpace rest with
    | [] => [[c]]
    | w :: ws => (c :: w) :: ws

/-- One word of the display name: `word.charAt(0).toUpperCase() +
word.slice(1).toLowerCase()` (`src/index.ts:256`). -/
def capitalizeWord : List Char → List Char
  | [] => []
  | c :: rest => c.toUpper :: rest.map Char.toLower

/-- The `toDisplayName` function of `src/index.ts:245-258`: replace `[_-]+`
runs by a space, collapse whitespace runs, trim, split on single spaces,
drop empty words (`filter(Boolean)`), capitalize each word and join with
single spaces; `"Snail Plugin"` when no words remain. -/
def toDisplayName (value : String) : String :=
  let words :=
    (splitSpace (trimChars (replaceWhitespaceRuns
        (replaceUnderscoreHyphenRuns value.data)))).filter fun w => !w.isEmpty
  if words.isEmpty then "Snail Plugin"
  else String.mk (List.intercalate [' '] (words.map capitalizeWord))

/-- Word extraction exactly as the specification words it: split on maximal
runs of hyphen/underscore/whitespace and discard empty words, i.e. return
the maximal runs of non-separator characters in order. -/
def splitWordRuns : List Char → List (List Char)
  | [] => []
  | c :: rest =>
    if isWordSeparator c then splitWordRuns rest
    else
      (c :: rest.takeWhile fun d => !isWordSeparator d)
        :: splitWordRuns (rest.dropWhile fun d => !isWordSeparator d)
termination_by l => l.length
decreasing_by
  · simp
  · have := dropWhile_length_le (fun d => !isWordSeparator d) rest
    simp
    omega

/-- The display-name transform as the specification words it: split into
words on runs of hyphen/underscore/whitespace, discard empty words,
capitalize the first character of each word and lowercase the remainder,
join with single spaces, and fall back to `"Snail Plugin"` when no words
remain. -/
def toDisplayNameSpec (value : String) : String :=
  let words := splitWordRuns value.data
  if words.isEmpty then "Snail Plugin"
  else String.mk (List.intercalate [' '] (words.map capitalizeWord))

/-- Proof-internal bridge: collapsing every maximal run of the combined
separator class (hyphen/underscore/whitespace) to a single space.  The two
successive replaces of `toDisplayName` compose to exactly this (a lemma
below); it is not itself an embedding of a source line. -/
def collapseSeparatorRuns : List Char → List Char
  | [] => []
  | c :: rest =>
    if isWordSeparator c then
      ' ' :: collapseSeparatorRuns (rest.dropWhile isWordSeparator)
    else c :: collapseSeparatorRuns rest
termination_by l => l.length
decreasing_by
  · have := dropWhile_length_le isWordSeparator rest
    simp
    omega
  · simp

/-! ## The substitution context (`TemplateContext`, `src/index.ts:11-17`) -/

/-- The `TemplateContext` record: the five string fields substituted into
templates.  Built once per run and never mutated. -/
structure TemplateContext where
  pluginName : String
  pluginDescription : String
  pluginIcon : String
  projectName : String
  projectSlug : String
deriving DecidableEq, Repr

/-- Field lookup by placeholder name, mirroring property access on the
context object passed to the compiled template at `src/index.ts:236`. -/
def lookupField (context : TemplateContext) : String → Option String
  | "pluginName" => some context.pluginName
  | "pluginDescription" => some context.pluginDescription
  | "pluginIcon" => some context.pluginIcon
  | "projectName" => some context.projectName
  | "projectSlug" => some context.projectSlug
  | _ => none

/-! ## Error kinds (specification section 7) -/

/-- The error kinds of the run, as the specification classifies the `Error`s
thrown by the source: `validationRequired` is "A project name is required."
(`src/index.ts:195`), the two destination errors are the messages of
`ensureDirectoryIsEmpty` (`src/index.ts:206` and `src/index.ts:210`), and
`templateMalformed` is a parse failure raised by `Handlebars.compile`. -/
inductive ScaffoldError where
  | validationRequired
  | destinationNotDirectory
  | destinationNotEmpty
  | templateMalformed
deriving DecidableEq, Repr

/-- Whether an error is a `DestinationError` in the specification's
classification. -/
def isDestinationError : ScaffoldError → Bool
  | ScaffoldError.destinationNotDirectory => true
  | ScaffoldError.destinationNotEmpty => true
  | _ => false

/-! ## The template renderer

The source renders a template with `Handlebars.compile(templateContent)(context)`
(`src/index.ts:236`) with no options.  Handlebars is an external library; the
model below follows its documented default behaviour on the flat
`{{identifier}}` templates this project uses: each `{{name}}` placeholder is
replaced by the HTML-escaped value of `context[name]`, a placeholder whose
name is not a context field renders as the empty string (non-strict mode is
the default), and a template whose `{{` is never closed is a compile error. -/

/-- Handlebars' `escapeExpression` applied to one character: `&`, `<`, `>`,
`"`, the apostrophe (39), the backquote (96) and `=` become HTML entities. -/
def escapeHtmlChar (c : Char) : List Char :=
  if c = '&' then "&amp;".data
  else if c = '<' then "&lt;".data
  else if c = '>' then "&gt;".data
  else if c = '"' then "&quot;".data
  else if c = Char.ofNat 39 then "&#x27;".data
  else if c = Char.ofNat 96 then "&#x60;".data
  else if c = '=' then "&#x3D;".data
  else [c]

/-- Handlebars' `escapeExpression` on a whole value. -/
def escapeHtml (l : List Char) : List Char :=
  (l.map escapeHtmlChar).flatten

/-- The rendering loop: scanning text while `none`, collecting a placeholder
name (reversed) while `some acc`; `{{` opens a placeholder, `}}` closes it
and substitutes the escaped field value (the empty string for an unknown
field), and an unterminated placeholder is a compile failure (`none`). -/
def renderLoop (context : TemplateContext) : List Char → Option (List Char) → Option (List Char)
  | [], none => some []
  | [], some _ => none
  | '{' :: '{' :: rest, none => renderLoop context rest (some [])
  | c :: rest, none => (renderLoop context rest none).map fun out => c :: out
  | '}' :: '}' :: rest, some acc =>
    (renderLoop context rest none).map fun out =>
      escapeHtml ((lookupField context (String.mk acc.reverse)).getD "").data ++ out
  | c :: rest, some acc => renderLoop context rest (some (c :: acc))

/-- Rendering one template file: `Handlebars.compile(templateContent)(context)`
with the default options, returning `templateMalformed` when compilation
fails. -/
def renderTemplate (context : TemplateContext) (templateContent : String) :
    Except ScaffoldError String :=
  match renderLoop context templateContent.data none with
  | some out => Except.ok (String.mk out)
  | none => Except.error ScaffoldError.templateMalformed

/-! ## The filesystem model -/

/-- A source template tree node: a file with its contents, or a directory
with its named entries (the order is the order `readdir` returns them in). -/
inductive FSTree where
  | file (content : String) : FSTree
  | dir (entries : List (String × FSTree)) : FSTree

/-- One filesystem write performed by the materializer: `mkdir(dir,
{recursive: true})` (`src/index.ts:219`) or `writeFile(path, content)`
(`src/index.ts:237` and `src/index.ts:241`).  Paths are lists of segments
below some root. -/
inductive WriteOp where
  | mkdirRec (path : List String)
  | writeF (path : List String) (content : String)
deriving DecidableEq, Repr

/-- Node's `path.join(dir, segment)` for the shapes this program produces:
joining an empty segment returns the directory itself (`path.join` ignores
empty parts). -/
def joinPath (dir : List String) (segment : String) : List String :=
  if segment = "" then dir else dir ++ [segment]

/-- The filename transform `entry.name.replace(/\.hbs$/, "")`
(`src/index.ts:227`): remove one trailing `.hbs` if present. -/
def stripTemplateSuffix (name : String) : String :=
  if ".hbs".data.isSuffixOf name.data
  then String.mk (name.data.take (name.data.length - 4))
  else name

/-- The destination name of a directory entry (`src/index.ts:226-228`): files
have the template suffix stripped, directories keep their name. -/
def entryDestName : String × FSTree → String
  | (name, FSTree.file _) => stripTemplateSuffix name
  | (name, FSTree.dir _) => name

mutual

/-- The `copyTemplateTree` walk of `src/index.ts:214-243` on the in-memory
tree: create the destination directory, then process the entries in order.
The result is the ordered trace of writes performed and the outcome; a
failure stops the walk, keeping the writes already performed. -/
def copyTemplateTree (context : TemplateContext) (entries : List (String × FSTree))
    (destDir : List String) : List WriteOp × Except ScaffoldError Unit :=
  let result := copyEntries context entries destDir
  (WriteOp.mkdirRec destDir :: result.1, result.2)

/-- The entry loop of `copyTemplateTree` (`src/index.ts:221-242`):
`.DS_Store` is skipped, a directory is recursed into, a `.hbs` file is
rendered and written under the stripped name, any other file is copied
byte-for-byte. -/
def copyEntries (context : TemplateContext) (entries : List (String × FSTree))
    (destDir : List String) : List WriteOp × Except ScaffoldError Unit :=
  match entries with
  | [] => ([], Except.ok ())
  | (name, node) :: rest =>
    if name = ".DS_Store" then copyEntries context rest destDir
    else
      match node with
      | FSTree.dir sub =>
        let subResult := copyTemplateTree context sub (joinPath destDir name)
        match subResult.2 with
        | Except.error e => (subResult.1, Except.error e)
        | Except.ok _ =>
          let restResult := copyEntries context rest destDir
          (subResult.1 ++ restResult.1, restResult.2)
      | FSTree.file content =>
        if ".hbs".data.isSuffixOf name.data then
          match renderTemplate context content with
          | Except.error e => ([], Except.error e)
          | Except.ok output =>
            let restResult := copyEntries context rest destDir
            (WriteOp.writeF (joinPath destDir (stripTemplateSuffix name)) output
              :: restResult.1, restResult.2)
        else
          let restResult := copyEntries context rest destDir
          (WriteOp.writeF (joinPath destDir (stripTemplateSuffix name)) content
            :: restResult.1, restResult.2)

end

/-- The file-write targets of a trace, in order. -/
def writeTargets (ops : List WriteOp) : List (List String) :=
  ops.filterMap fun op =>
    match op with
    | WriteOp.writeF path _ => some path
    | WriteOp.mkdirRec _ => none

/-- The entries `copyTemplateTree` does not skip (everything except
`.DS_Store`). -/
def activeEntries (entries : List (String × FSTree)) : List (String × FSTree) :=
  entries.filter fun e => e.1 ≠ ".DS_Store"

/-- Well-formedness of a source tree, recursively: among the non-skipped
entries of every directory, no two map to the same destination name, and
directory names are nonempty (real `readdir` entries always are; an empty
name would alias its parent under `path.join`). -/
inductive GoodEntries : List (String × FSTree) → Prop where
  | intro (entries : List (String × FSTree))
      (nodupNames : ((activeEntries entries).map entryDestName).Nodup)
      (dirNamesNonempty : ∀ name sub,
        (name, FSTree.dir sub) ∈ activeEntries entries → name ≠ "")
      (subGood : ∀ name sub,
        (name, FSTree.dir sub) ∈ activeEntries entries → GoodEntries sub) :
      GoodEntries entries

/-! ## The destination guard and the flow (`src/index.ts:93-138, 200-212`) -/

/-- What the destination path currently is on disk: absent, an existing
non-directory, or an existing directory with the given entry names. -/
inductive PathState where
  | absent
  | existsAsFile
  | existsAsDir (contents : List String)
deriving DecidableEq, Repr

/-- The `ensureDirectoryIsEmpty` guard of `src/index.ts:200-212`: nothing to
check when the path does not exist; an existing non-directory and an existing
directory with at least one entry are errors.  The source only reads
(`existsSync`, `stat`, `readdir`); it creates nothing. -/
def ensureDirectoryIsEmpty : PathState → Except ScaffoldError Unit
  | PathState.absent => Except.ok ()
  | PathState.existsAsFile => Except.error ScaffoldError.destinationNotDirectory
  | PathState.existsAsDir contents =>
    if contents.length > 0 then Except.error ScaffoldError.destinationNotEmpty
    else Except.ok ()

/-- The `normalizeProjectName` of `src/index.ts:192-198`: trim, and fail when
the input is missing or trims to the empty string (`!normalized`). -/
def normalizeProjectName (value : Option String) : Except ScaffoldError String :=
  match value.map fun v => String.mk (trimChars v.data) with
  | none => Except.error ScaffoldError.validationRequired
  | some normalized =>
    if normalized = "" then Except.error ScaffoldError.validationRequired
    else Except.ok normalized

/-- The interactive answers (`PromptAnswers`, `src/index.ts:19-24`); fields
are absent when the corresponding question was not asked. -/
structure PromptAnswers where
  projectName : Option String
  pluginName : Option String
  pluginDescription : Option String
  pluginIcon : Option String
deriving DecidableEq, Repr

/-- The command-line options (`CreateOptions`, `src/index.ts:26-31`). -/
structure CreateOptions where
  directory : Option String
  pluginName : Option String
  description : Option String
  icon : Option String
deriving DecidableEq, Repr

/-- `DEFAULT_DESCRIPTION` (`src/index.ts:35`). -/
def defaultDescription : String := "A new Snail plugin created with snail-init"

/-- `DEFAULT_ICON` (`src/index.ts:36`). -/
def defaultIcon : String := "null"

/-- JavaScript's `toLowerCase()` on the ASCII range, as used on the icon at
`src/index.ts:124`. -/
def lowercaseString (s : String) : String :=
  String.mk (s.data.map Char.toLower)

/-- The context construction of `src/index.ts:118-134`: each field falls back
from command-line option to interactive answer to computed default, and an
icon that case-insensitively equals "null" is normalized to the literal
lowercase "null". -/
def buildTemplateContext (projectName : String) (answers : PromptAnswers)
    (cliOptions : CreateOptions) : TemplateContext :=
  let pluginIconRaw := (cliOptions.icon.orElse fun _ => answers.pluginIcon).getD defaultIcon
  { pluginName :=
      (cliOptions.pluginName.orElse fun _ => answers.pluginName).getD (toDisplayName projectName)
    pluginDescription :=
      (cliOptions.description.orElse fun _ => answers.pluginDescription).getD defaultDescription
    pluginIcon := if lowercaseString pluginIconRaw = "null" then "null" else pluginIconRaw
    projectName := projectName
    projectSlug := toSlug projectName }

/-- The `createProjectFlow` of `src/index.ts:93-138` from the point where the
answers are known: normalize the project name, run the destination guard,
build the context and materialize the template into
`cliOptions.directory ?? projectName`.  The result is the trace of writes
performed and the outcome; both early failures perform no write. -/
def createProjectFlow (projectNameArg : Option String) (answers : PromptAnswers)
    (cliOptions : CreateOptions) (destState : PathState)
    (template : List (String × FSTree)) : List WriteOp × Except ScaffoldError Unit :=
  match normalizeProjectName (projectNameArg.orElse fun _ => answers.projectName) with
  | Except.error e => ([], Except.error e)
  | Except.ok projectName =>
    match ensureDirectoryIsEmpty destState with
    | Except.error e => ([], Except.error e)
    | Except.ok _ =>
      copyTemplateTree (buildTemplateContext projectName answers cliOptions)
        template [cliOptions.directory.getD projectName]

/-- A concrete context used by several concrete evaluations below: the
context a run with project name "demo" and no icon produces. -/
def sampleContext : TemplateContext :=
  { pluginName := "Demo"
    pluginDescription := "A new Snail plugin created with snail-init"
    pluginIcon := "null"
    projectName := "demo"
    projectSlug := "demo" }

/-- The end-to-end example source tree of the specification, with the
`.tmpl`-suffixed names the specification gives it. -/
def exampleTreeTmpl : List (String × FSTree) :=
  [("a.txt", FSTree.file "hello"),
   ("b.txt.tmpl", FSTree.file "Hi {{projectName}}"),
   ("sub", FSTree.dir [("c.txt.tmpl", FSTree.file "{{pluginIcon}}")])]

/-- The same example tree with the template-marker suffix the source
actually recognizes (`.hbs`, `src/index.ts:227` and `src/index.ts:234`). -/
def exampleTreeHbs : List (String × FSTree) :=
  [("a.txt", FSTree.file "hello"),
   ("b.txt.hbs", FSTree.file "Hi {{projectName}}"),
   ("sub", FSTree.dir [("c.txt.hbs", FSTree.file "{{pluginIcon}}")])]

/-- A source directory in which a plain file and a template map to the same
destination name `x`. -/
def collidingTree : List (String × FSTree) :=
  [("x", FSTree.file "A"), ("x.hbs", FSTree.file "B")]

/-! ## Facts about the character classes -/

theorem slugChar_ne_hyphen {c : Char} (h : isSlugChar c = true) : c ≠ '-' := by
  intro he
  subst he
  simp [isSlugChar] at h

theorem ws_not_slugChar {c : Char} (h : c.isWhitespace = true) : isSlugChar c = false := by
  simp [Char.isWhitespace] at h
  rcases h with ((rfl | rfl) | rfl) | rfl <;> decide

theorem slugChar_not_ws {c : Char} (h : isSlugChar c = true) : c.isWhitespace = false := by
  cases hw : c.isWhitespace with
  | false => rfl
  | true => rw [ws_not_slugChar hw] at h; cases h

theorem toLower_of_slugChar {c : Char} (h : isSlugChar c = true) : c.toLower = c := by
  simp [isSlugChar] at h
  simp [Char.toLower]
  omega

theorem toLower_of_ws {c : Char} (h : c.isWhitespace = true) : c.toLower = c := by
  simp [Char.isWhitespace] at h
  rcases h with ((rfl | rfl) | rfl) | rfl <;> decide

theorem hyphen_not_ws : ('-').isWhitespace = false := by decide

/-! ## Facts about `dropWhile`, `takeWhile` and `dropTrailing` -/

theorem dropWhile_eq_self_of_head {p : Char → Bool} : ∀ {l : List Char},
    (∀ c t, l = c :: t → p c = false) → l.dropWhile p = l := by
  intro l h
  cases l with
  | nil => rfl
  | cons c t => simp [List.dropWhile, h c t rfl]

theorem dropWhile_eq_self_of_all {p : Char → Bool} {l : List Char}
    (h : ∀ c ∈ l, p c = false) : l.dropWhile p = l := by
  cases l with
  | nil => rfl
  | cons c t => simp [List.dropWhile, h c (by simp)]

theorem mem_of_mem_dropWhile {p : Char → Bool} {c : Char} :
    ∀ {l : List Char}, c ∈ l.dropWhile p → c ∈ l := by
  intro l
  induction l with
  | nil => simp
  | cons d t ih =>
    intro h
    by_cases hd : p d
    · simp [List.dropWhile, hd] at h
      exact List.mem_cons_of_mem d (ih h)
    · simpa [List.dropWhile, hd] using h

theorem dropWhile_head_false {p : Char → Bool} {c : Char} {t : List Char} :
    ∀ {l : List Char}, l.dropWhile p = c :: t → p c = false := by
  intro l
  induction l with
  | nil => intro h; cases h
  | cons d r ih =>
    intro h
    by_cases hd : p d
    · exact ih (by simpa [List.dropWhile, hd] using h)
    · rw [List.dropWhile_cons_of_neg (by simpa using hd)] at h
      cases h
      simpa using hd

theorem dropWhile_dropWhile_sub {p q : Char → Bool}
    (hpq : ∀ c, p c = true → q c = true) :
    ∀ l : List Char, (l.dropWhile p).dropWhile q = l.dropWhile q := by
  intro l
  induction l with
  | nil => rfl
  | cons c rest ih =>
    by_cases hc : p c
    · rw [List.dropWhile_cons_of_pos hc, ih,
        List.dropWhile_cons_of_pos (by simp [hpq c hc])]
    · rw [List.dropWhile_cons_of_neg (by simpa using hc)]

theorem mem_takeWhile_pred {p : Char → Bool} {c : Char} :
    ∀ {l : List Char}, c ∈ l.takeWhile p → p c = true := by
  intro l
  induction l with
  | nil => simp
  | cons d r ih =>
    intro h
    by_cases hd : p d
    · rw [List.takeWhile_cons_of_pos hd] at h
      rcases List.mem_cons.mp h with rfl | h
      · exact hd
      · exact ih h
    · rw [List.takeWhile_cons_of_neg (by simpa using hd)] at h
      cases h

theorem mem_of_mem_dropTrailing {p : Char → Bool} {c : Char} :
    ∀ {l : List Char}, c ∈ dropTrailing p l → c ∈ l := by
  intro l
  induction l with
  | nil => simp [dropTrailing]
  | cons d r ih =>
    intro h
    rw [dropTrailing] at h
    by_cases hc : (dropTrailing p r).isEmpty && p d
    · simp [hc] at h
    · simp only [hc, if_false] at h
      rcases List.mem_cons.mp h with rfl | h
      · exact List.mem_cons_self c r
      · exact List.mem_cons_of_mem d (ih h)

theorem dropTrailing_eq_self_of_all {p : Char → Bool} : ∀ {l : List Char},
    (∀ c ∈ l, p c = false) → dropTrailing p l = l := by
  intro l
  induction l with
  | nil => intro _; rfl
  | cons d r ih =>
    intro h
    rw [dropTrailing, ih fun c hc => h c (List.mem_cons_of_mem d hc),
      h d (List.mem_cons_self d r)]
    simp

theorem dropTrailing_nil_all {p : Char → Bool} : ∀ {l : List Char},
    dropTrailing p l = [] → ∀ c ∈ l, p c = true := by
  intro l
  induction l with
  | nil => simp
  | cons d r ih =>
    intro h c hc
    rw [dropTrailing] at h
    by_cases hcond : (dropTrailing p r).isEmpty && p d
    · simp only [Bool.and_eq_true, List.isEmpty_iff] at hcond
      rcases List.mem_cons.mp hc with rfl | hc
      · exact hcond.2
      · exact ih hcond.1 c hc
    · simp [hcond] at h

theorem dropTrailing_cons_ne {p : Char → Bool} {d : Char} {r : List Char}
    (h : dropTrailing p (d :: r) ≠ []) :
    dropTrailing p (d :: r) = d :: dropTrailing p r := by
  rw [dropTrailing] at h ⊢
  by_cases hcond : (dropTrailing p r).isEmpty && p d
  · simp [hcond] at h
  · simp [hcond]

theorem dropTrailing_decomp (p : Char → Bool) : ∀ l : List Char,
    ∃ post, l = dropTrailing p l ++ post ∧ ∀ c ∈ post, p c = true := by
  intro l
  induction l with
  | nil => exact ⟨[], rfl, by simp⟩
  | cons d r ih =>
    obtain ⟨post, hpost, hall⟩ := ih
    rw [dropTrailing]
    by_cases hcond : (dropTrailing p r).isEmpty && p d
    · refine ⟨d :: r, by simp [hcond], ?_⟩
      simp only [Bool.and_eq_true, List.isEmpty_iff] at hcond
      intro c hc
      rcases List.mem_cons.mp hc with rfl | hc
      · exact hcond.2
      · exact dropTrailing_nil_all hcond.1 c hc
    · refine ⟨post, ?_, hall⟩
      simp only [hcond]
      simpa using hpost

/-! ## The no-double-hyphen invariant of the collapsed string -/

/-- No two adjacent hyphens: the collapse step emits single hyphens only, and
this is what makes the trimmed result match the slug regular expression. -/
def noDoubleHyphen : List Char → Bool
  | [] => true
  | [_] => true
  | a :: b :: rest => !(a = '-' && b = '-') && noDoubleHyphen (b :: rest)

theorem noDoubleHyphen_tail {c : Char} : ∀ {l : List Char},
    noDoubleHyphen (c :: l) = true → noDoubleHyphen l = true := by
  intro l h
  cases l with
  | nil => rfl
  | cons b r => exact (Bool.and_eq_true_iff.mp h).2

theorem noDoubleHyphen_cons {c d : Char} {l : List Char}
    (hpair : (c = '-' ∧ d = '-') → False)
    (h : noDoubleHyphen (d :: l) = true) : noDoubleHyphen (c :: d :: l) = true := by
  rw [noDoubleHyphen, h]
  simp only [Bool.and_true, Bool.not_eq_true']
  by_cases hc : c = '-'
  · by_cases hd : d = '-'
    · exact absurd ⟨hc, hd⟩ hpair
    · simp [hd]
  · simp [hc]

theorem collapse_mem : ∀ l : List Char, ∀ c ∈ collapseOutsideSlug l,
    isSlugChar c = true ∨ c = '-' := by
  intro l
  induction l using collapseOutsideSlug.induct with
  | case1 => simp [collapseOutsideSlug]
  | case2 c rest hc ih =>
    intro d hd
    rw [collapseOutsideSlug, if_pos hc] at hd
    rcases List.mem_cons.mp hd with rfl | hd
    · exact Or.inl hc
    · exact ih d hd
  | case3 c rest hc ih =>
    intro d hd
    rw [collapseOutsideSlug, if_neg hc] at hd
    rcases List.mem_cons.mp hd with rfl | hd
    · exact Or.inr rfl
    · exact ih d hd

theorem collapse_noDoubleHyphen : ∀ l : List Char,
    noDoubleHyphen (collapseOutsideSlug l) = true := by
  intro l
  induction l using collapseOutsideSlug.induct with
  | case1 => simp [collapseOutsideSlug, noDoubleHyphen]
  | case2 c rest hc ih =>
    rw [collapseOutsideSlug, if_pos hc]
    cases he : collapseOutsideSlug rest with
    | nil => rfl
    | cons b r =>
      rw [he] at ih
      refine noDoubleHyphen_cons (fun hp => ?_) ih
      exact slugChar_ne_hyphen hc hp.1
  | case3 c rest hc ih =>
    rw [collapseOutsideSlug, if_neg hc]
    cases he : collapseOutsideSlug (rest.dropWhile fun d => !isSlugChar d) with
    | nil => rfl
    | cons b r =>
      rw [he] at ih
      refine noDoubleHyphen_cons (fun hp => ?_) ih
      -- the head of the recursive collapse is the head of the dropped rest,
      -- which is a slug character, never a hyphen
      cases hd : rest.dropWhile fun d => !isSlugChar d with
      | nil =>
        rw [hd] at he
        simp [collapseOutsideSlug] at he
      | cons e t =>
        have he2 : isSlugChar e = true := by
          have := dropWhile_head_false hd
          simpa using this
        rw [hd, collapseOutsideSlug, if_pos he2] at he
        cases he
        exact slugChar_ne_hyphen he2 hp.2

/-! ## The trimmed collapse matches the slug shape -/

theorem slugShapeAux_toggle {d : Char} (t : List Char) (hd : d ≠ '-') :
    slugShapeAux (d :: t) true = slugShapeAux (d :: t) false := by
  rw [slugShapeAux, slugShapeAux, if_neg hd]

theorem dropTrailing_shape :
    ∀ t : List Char, (∀ c ∈ t, isSlugChar c = true ∨ c = '-') →
      noDoubleHyphen t = true →
      slugShapeAux (dropTrailing (fun c => c = '-') t) false = true := by
  intro t
  induction t with
  | nil => intro _ _; rfl
  | cons c rest ih =>
    intro hall hdd
    have hrest := ih (fun d hd => hall d (List.mem_cons_of_mem c hd)) (noDoubleHyphen_tail hdd)
    rw [dropTrailing]
    by_cases hcond : ((dropTrailing (fun c => c = '-') rest).isEmpty && decide (c = '-')) = true
    · rw [if_pos hcond]; rfl
    · rw [if_neg hcond]
      by_cases hc : c = '-'
      · subst hc
        -- the trailing trim of `rest` is nonempty, so `rest` is nonempty and
        -- its head is not a hyphen (no double hyphens)
        have hne : dropTrailing (fun c => c = '-') rest ≠ [] := by
          intro hnil
          exact hcond (by simp [hnil])
        cases rest with
        | nil => exact absurd rfl hne
        | cons d rest2 =>
          have hd : d ≠ '-' := by
            intro hd
            subst hd
            simp [noDoubleHyphen] at hdd
          rw [dropTrailing_cons_ne hne] at hrest ⊢
          rw [slugShapeAux, if_pos rfl, slugShapeAux_toggle _ hd]
          exact hrest
      · have hslug : isSlugChar c = true := by
          rcases hall c (List.mem_cons_self c rest) with h | h
          · exact h
          · exact absurd h hc
        rw [slugShapeAux, if_neg hc, hslug, hrest]
        rfl

theorem trimHyphens_shape (t : List Char)
    (hall : ∀ c ∈ t, isSlugChar c = true ∨ c = '-')
    (hdd : noDoubleHyphen t = true) :
    trimHyphens t = [] ∨ matchesSlugShape (trimHyphens t) = true := by
  have hu := dropTrailing_shape t hall hdd
  rw [trimHyphens]
  cases he : dropTrailing (fun c => c = '-') t with
  | nil => exact Or.inl rfl
  | cons d u =>
    rw [he] at hu
    by_cases hd : d = '-'
    · subst hd
      rw [slugShapeAux, if_pos rfl] at hu
      cases u with
      | nil => cases hu
      | cons e u2 =>
        have he2 : isSlugChar e = true := (Bool.and_eq_true_iff.mp (by rw [← slugShapeAux]; exact hu)).1
        right
        rw [List.dropWhile_cons_of_pos (by simp), List.dropWhile_cons_of_neg
          (by simpa using slugChar_ne_hyphen he2)]
        exact hu
    · right
      rw [List.dropWhile_cons_of_neg (by simpa using hd)]
      rw [matchesSlugShape, slugShapeAux_toggle _ hd]
      exact hu

theorem collapse_trim_shape (m : List Char) :
    trimHyphens (collapseOutsideSlug m) = []
      ∨ matchesSlugShape (trimHyphens (collapseOutsideSlug m)) = true :=
  trimHyphens_shape _ (collapse_mem m) (collapse_noDoubleHyphen m)

/-! ## Strings that match the slug shape are fixed points of every stage -/

theorem slugShape_mem : ∀ (t : List Char) (b : Bool), slugShapeAux t b = true →
    ∀ c ∈ t, isSlugChar c = true ∨ c = '-' := by
  intro t
  induction t with
  | nil => simp
  | cons c rest ih =>
    intro b h d hd
    cases b with
    | true =>
      rw [slugShapeAux, Bool.and_eq_true_iff] at h
      rcases List.mem_cons.mp hd with rfl | hd
      · exact Or.inl h.1
      · exact ih false h.2 d hd
    | false =>
      by_cases hc : c = '-'
      · rw [slugShapeAux, if_pos hc] at h
        rcases List.mem_cons.mp hd with rfl | hd
        · exact Or.inr hc
        · exact ih true h d hd
      · rw [slugShapeAux, if_neg hc, Bool.and_eq_true_iff] at h
        rcases List.mem_cons.mp hd with rfl | hd
        · exact Or.inl h.1
        · exact ih false h.2 d hd

theorem collapse_fix_aux : ∀ t : List Char, slugShapeAux t false = true →
    collapseOutsideSlug t = t := by
  intro t
  induction t with
  | nil => intro _; simp [collapseOutsideSlug]
  | cons c rest ih =>
    intro h
    by_cases hc : c = '-'
    · subst hc
      rw [slugShapeAux, if_pos rfl] at h
      cases rest with
      | nil => cases h
      | cons d rest2 =>
        have hd : isSlugChar d = true := (Bool.and_eq_true_iff.mp (by rw [← slugShapeAux]; exact h)).1
        have hrest : slugShapeAux (d :: rest2) false = true := by
          rw [← slugShapeAux_toggle _ (slugChar_ne_hyphen hd)]
          exact h
        rw [collapseOutsideSlug, if_neg (by decide),
          List.dropWhile_cons_of_neg (by simpa using hd), ih hrest]
    · rw [slugShapeAux, if_neg hc, Bool.and_eq_true_iff] at h
      rw [collapseOutsideSlug, if_pos h.1, ih h.2]

theorem collapse_fix {t : List Char} (h : matchesSlugShape t = true) :
    collapseOutsideSlug t = t := by
  cases t with
  | nil => simp [collapseOutsideSlug]
  | cons c rest =>
    rw [matchesSlugShape, slugShapeAux, Bool.and_eq_true_iff] at h
    rw [collapseOutsideSlug, if_pos h.1, collapse_fix_aux rest h.2]

theorem dropTrailing_hyph_fix : ∀ (t : List Char) (b : Bool), slugShapeAux t b = true →
    dropTrailing (fun c => c = '-') t = t := by
  intro t
  induction t with
  | nil => intro _ _; rfl
  | cons c rest ih =>
    intro b h
    have hnext : (∃ b2, slugShapeAux rest b2 = true) ∧ (rest = [] → c ≠ '-') := by
      cases b with
      | true =>
        rw [slugShapeAux, Bool.and_eq_true_iff] at h
        exact ⟨⟨false, h.2⟩, fun _ => slugChar_ne_hyphen h.1⟩
      | false =>
        by_cases hc : c = '-'
        · rw [slugShapeAux, if_pos hc] at h
          refine ⟨⟨true, h⟩, fun hr => ?_⟩
          rw [hr] at h
          cases h
        · rw [slugShapeAux, if_neg hc, Bool.and_eq_true_iff] at h
          exact ⟨⟨false, h.2⟩, fun _ => hc⟩
    obtain ⟨⟨b2, hb2⟩, hemp⟩ := hnext
    rw [dropTrailing, ih b2 hb2]
    cases rest with
    | nil => simp [hemp rfl]
    | cons d rest2 => simp

theorem trimHyphens_fix {t : List Char} (h : matchesSlugShape t = true) :
    trimHyphens t = t := by
  rw [trimHyphens, dropTrailing_hyph_fix t true h]
  cases t with
  | nil => rfl
  | cons c rest =>
    rw [matchesSlugShape, slugShapeAux, Bool.and_eq_true_iff] at h
    exact List.dropWhile_cons_of_neg (by simpa using slugChar_ne_hyphen h.1)

theorem map_toLower_eq_self : ∀ {t : List Char},
    (∀ c ∈ t, Char.toLower c = c) → t.map Char.toLower = t := by
  intro t
  induction t with
  | nil => intro _; rfl
  | cons c rest ih =>
    intro h
    rw [List.map_cons, h c (List.mem_cons_self c rest),
      ih fun d hd => h d (List.mem_cons_of_mem c hd)]

theorem slugShape_toLower_fix {t : List Char} (h : matchesSlugShape t = true) :
    t.map Char.toLower = t := by
  refine map_toLower_eq_self fun c hc => ?_
  rcases slugShape_mem t true h c hc with hs | hs
  · exact toLower_of_slugChar hs
  · subst hs; decide

theorem trimChars_fix {t : List Char} (hall : ∀ c ∈ t, c.isWhitespace = false) :
    trimChars t = t := by
  rw [trimChars, dropWhile_eq_self_of_all hall, dropTrailing_eq_self_of_all hall]

theorem slugShape_not_ws {t : List Char} (h : matchesSlugShape t = true) :
    ∀ c ∈ t, c.isWhitespace = false := by
  intro c hc
  rcases slugShape_mem t true h c hc with hs | hs
  · exact slugChar_not_ws hs
  · subst hs; decide

/-- A string already matching the slug shape is a fixed point of `toSlug`. -/
theorem toSlug_fix {t : String} (h : matchesSlugShape t.data = true) :
    toSlug t = t := by
  have hne : ¬t.data.isEmpty = true := by
    cases hd : t.data with
    | nil => rw [hd] at h; cases h
    | cons c rest => simp
  rw [toSlug]
  simp only [trimChars_fix (slugShape_not_ws h), slugShape_toLower_fix h,
    collapse_fix h, trimHyphens_fix h, hne]
  simp only [Bool.false_eq_true, if_false]

/-! ## Cons equations for the collapse and the trailing trim -/

theorem collapse_cons_slug {a : Char} (ha : isSlugChar a = true) (m : List Char) :
    collapseOutsideSlug (a :: m) = a :: collapseOutsideSlug m := by
  rw [collapseOutsideSlug, if_pos ha]

theorem collapse_cons_notSlug {a : Char} (ha : isSlugChar a = false) (m : List Char) :
    collapseOutsideSlug (a :: m)
      = '-' :: collapseOutsideSlug (m.dropWhile fun d => !isSlugChar d) := by
  rw [collapseOutsideSlug, if_neg (by simp [ha])]

theorem dropTrailing_cons_notp {p : Char → Bool} {a : Char} (ha : p a = false)
    (y : List Char) : dropTrailing p (a :: y) = a :: dropTrailing p y := by
  rw [dropTrailing, ha]
  simp

theorem dropTrailing_cons_p {p : Char → Bool} {a : Char} (ha : p a = true)
    (y : List Char) :
    dropTrailing p (a :: y)
      = if (dropTrailing p y).isEmpty then [] else a :: dropTrailing p y := by
  rw [dropTrailing, ha]
  by_cases hy : (dropTrailing p y).isEmpty <;> simp [hy]

/-! ## Characters outside the slug class do not change the trimmed collapse -/

theorem trimHyphens_cons_hyphen (x : List Char) :
    trimHyphens ('-' :: x) = trimHyphens x := by
  rw [trimHyphens, trimHyphens, dropTrailing_cons_p (by simp)]
  by_cases hx : (dropTrailing (fun c => c = '-') x).isEmpty
  · rw [if_pos hx]
    rw [List.isEmpty_iff] at hx
    rw [hx]
  · rw [if_neg hx, List.dropWhile_cons_of_pos (by simp)]

theorem trimHyphens_collapse_cons {c : Char} (hc : isSlugChar c = false)
    (m : List Char) :
    trimHyphens (collapseOutsideSlug (c :: m))
      = trimHyphens (collapseOutsideSlug m) := by
  rw [collapse_cons_notSlug hc]
  cases m with
  | nil => simp [collapseOutsideSlug, trimHyphens, dropTrailing]
  | cons d m2 =>
    by_cases hd : isSlugChar d
    · rw [List.dropWhile_cons_of_neg (by simpa using hd), trimHyphens_cons_hyphen]
    · rw [List.dropWhile_cons_of_pos (by simpa using hd), trimHyphens_cons_hyphen,
        collapse_cons_notSlug (by simpa using hd), trimHyphens_cons_hyphen]

theorem dropTrailing_collapse_append {c : Char} (hc : isSlugChar c = false) :
    ∀ m : List Char,
      dropTrailing (fun e => e = '-') (collapseOutsideSlug (m ++ [c]))
        = dropTrailing (fun e => e = '-') (collapseOutsideSlug m) := by
  intro m
  induction m using collapseOutsideSlug.induct with
  | case1 =>
    rw [List.nil_append, collapse_cons_notSlug hc]
    simp [collapseOutsideSlug, dropTrailing]
  | case2 a rest ha ih =>
    rw [List.cons_append, collapse_cons_slug ha, collapse_cons_slug ha,
      dropTrailing_cons_notp (by simp [slugChar_ne_hyphen ha]),
      dropTrailing_cons_notp (by simp [slugChar_ne_hyphen ha]), ih]
  | case3 a rest ha ih =>
    have ha2 : isSlugChar a = false := by simpa using ha
    rw [List.cons_append, collapse_cons_notSlug ha2, collapse_cons_notSlug ha2,
      List.dropWhile_append]
    by_cases hrest : (rest.dropWhile fun d => !isSlugChar d).isEmpty
    · rw [if_pos hrest, List.dropWhile_cons_of_pos (by simp [hc])]
      rw [List.isEmpty_iff] at hrest
      rw [hrest]
      rfl
    · rw [if_neg hrest, dropTrailing_cons_p (by simp), dropTrailing_cons_p (by simp), ih]

theorem trimHyphens_collapse_append {c : Char} (hc : isSlugChar c = false)
    (m : List Char) :
    trimHyphens (collapseOutsideSlug (m ++ [c]))
      = trimHyphens (collapseOutsideSlug m) := by
  rw [trimHyphens, trimHyphens, dropTrailing_collapse_append hc]

theorem trimHyphens_collapse_prepend :
    ∀ pre : List Char, (∀ c ∈ pre, isSlugChar c = false) → ∀ m : List Char,
      trimHyphens (collapseOutsideSlug (pre ++ m))
        = trimHyphens (collapseOutsideSlug m) := by
  intro pre
  induction pre with
  | nil => intro _ m; rfl
  | cons d pre2 ih =>
    intro hall m
    rw [List.cons_append, trimHyphens_collapse_cons (hall d (List.mem_cons_self d pre2)),
      ih (fun c hcm => hall c (List.mem_cons_of_mem d hcm)) m]

theorem trimHyphens_collapse_postpend :
    ∀ post : List Char, (∀ c ∈ post, isSlugChar c = false) → ∀ m : List Char,
      trimHyphens (collapseOutsideSlug (m ++ post))
        = trimHyphens (collapseOutsideSlug m) := by
  intro post
  induction post with
  | nil => intro _ m; rw [List.append_nil]
  | cons d post2 ih =>
    intro hall m
    rw [show m ++ d :: post2 = (m ++ [d]) ++ post2 by simp,
      ih (fun c hcm => hall c (List.mem_cons_of_mem d hcm)) (m ++ [d]),
      trimHyphens_collapse_append (hall d (List.mem_cons_self d post2))]

/-! ## The initial `trim()` of `toSlug` is redundant -/

theorem toSlug_core_trim_redundant (l : List Char) :
    trimHyphens (collapseOutsideSlug ((trimChars l).map Char.toLower))
      = trimHyphens (collapseOutsideSlug (l.map Char.toLower)) := by
  obtain ⟨post, hz, hpost⟩ := dropTrailing_decomp Char.isWhitespace (l.dropWhile Char.isWhitespace)
  have hsplit : l = l.takeWhile Char.isWhitespace ++ (trimChars l ++ post) := by
    rw [trimChars, ← hz, List.takeWhile_append_dropWhile]
  have hpre : ∀ c ∈ l.takeWhile Char.isWhitespace, c.isWhitespace = true :=
    fun c hcm => mem_takeWhile_pred hcm
  have hmap : l.map Char.toLower
      = l.takeWhile Char.isWhitespace ++ ((trimChars l).map Char.toLower ++ post) := by
    conv_lhs => rw [hsplit]
    rw [List.map_append, List.map_append,
      map_toLower_eq_self fun c hcm => toLower_of_ws (hpre c hcm),
      map_toLower_eq_self fun c hcm => toLower_of_ws (hpost c hcm)]
  rw [hmap,
    trimHyphens_collapse_prepend _ (fun c hcm => ws_not_slugChar (hpre c hcm)) _,
    trimHyphens_collapse_postpend _ (fun c hcm => ws_not_slugChar (hpost c hcm)) _]

theorem matchesSlugShape_nonempty {l : List Char} (h : matchesSlugShape l = true) :
    l.isEmpty = false := by
  cases l with
  | nil => cases h
  | cons c r => rfl

/-! ## Claims C1 and C2: the slug transform -/

/-- C1: `toSlug` is idempotent: `toSlug (toSlug x) = toSlug x` for every
string `x`, including when the first application returns the fallback slug
"snail-plugin". -/
theorem toSlug_idempotent (s : String) : toSlug (toSlug s) = toSlug s := by
  rcases collapse_trim_shape ((trimChars s.data).map Char.toLower) with hnil | hshape
  · have hs : toSlug s = "snail-plugin" := by simp [toSlug, hnil]
    rw [hs]
    exact toSlug_fix (by decide)
  · have hne := matchesSlugShape_nonempty hshape
    have hs : toSlug s
        = String.mk (trimHyphens (collapseOutsideSlug ((trimChars s.data).map Char.toLower))) := by
      simp [toSlug, hne]
    rw [hs]
    exact toSlug_fix hshape

/-- C2: `toSlug` computes exactly what the specification describes
(`toSlugSpec`: lowercase, collapse every maximal run outside `[a-z0-9]` to a
single hyphen, trim leading/trailing hyphens, fallback "snail-plugin" when
empty); consequently every output matches `^[a-z0-9]+(-[a-z0-9]+)*$` or
equals the fallback, and `toSlug "My Cool Plugin!!" = "my-cool-plugin"`. -/
theorem toSlug_meets_spec :
    (∀ s : String, toSlug s = toSlugSpec s
      ∧ (matchesSlugShape (toSlug s).data = true ∨ toSlug s = "snail-plugin"))
    ∧ toSlug "My Cool Plugin!!" = "my-cool-plugin" := by
  constructor
  · intro s
    constructor
    · simp only [toSlug, toSlugSpec, toSlug_core_trim_redundant]
    · rcases collapse_trim_shape ((trimChars s.data).map Char.toLower) with hnil | hshape
      · right
        simp [toSlug, hnil]
      · left
        have hne := matchesSlugShape_nonempty hshape
        have hs : toSlug s
            = String.mk (trimHyphens (collapseOutsideSlug ((trimChars s.data).map Char.toLower))) := by
          simp [toSlug, hne]
        rw [hs]
        exact hshape
  · simp [toSlug, trimChars, dropTrailing, collapseOutsideSlug, trimHyphens, isSlugChar]

/-! ## Claim C3: the display-name transform -/

theorem uh_implies_sep {c : Char} (h : isUnderscoreOrHyphen c = true) :
    isWordSeparator c = true := by
  rcases Bool.or_eq_true_iff.mp h with h | h <;> simp [isWordSeparator, h]

theorem ws_implies_sep {c : Char} (h : c.isWhitespace = true) :
    isWordSeparator c = true := by
  simp [isWordSeparator, h]

theorem notSep_of_neither {c : Char} (huh : isUnderscoreOrHyphen c = false)
    (hws : c.isWhitespace = false) : isWordSeparator c = false := by
  simp only [isUnderscoreOrHyphen, Bool.or_eq_false_iff] at huh
  simp [isWordSeparator, huh.1, huh.2, hws]

theorem notSep_ne_space {c : Char} (h : isWordSeparator c = false) : c ≠ ' ' := by
  intro he
  subst he
  simp [isWordSeparator] at h

theorem repUH_nil : replaceUnderscoreHyphenRuns [] = [] := by
  rw [replaceUnderscoreHyphenRuns]

theorem repUH_cons_sep {c : Char} (h : isUnderscoreOrHyphen c = true) (m : List Char) :
    replaceUnderscoreHyphenRuns (c :: m)
      = ' ' :: replaceUnderscoreHyphenRuns (m.dropWhile isUnderscoreOrHyphen) := by
  rw [replaceUnderscoreHyphenRuns, if_pos h]

theorem repUH_cons_other {c : Char} (h : isUnderscoreOrHyphen c = false) (m : List Char) :
    replaceUnderscoreHyphenRuns (c :: m) = c :: replaceUnderscoreHyphenRuns m := by
  rw [replaceUnderscoreHyphenRuns, if_neg (by simp [h])]

theorem repWS_nil : replaceWhitespaceRuns [] = [] := by
  rw [replaceWhitespaceRuns]

theorem repWS_cons_ws {c : Char} (h : c.isWhitespace = true) (m : List Char) :
    replaceWhitespaceRuns (c :: m)
      = ' ' :: replaceWhitespaceRuns (m.dropWhile Char.isWhitespace) := by
  rw [replaceWhitespaceRuns, if_pos h]

theorem repWS_cons_other {c : Char} (h : c.isWhitespace = false) (m : List Char) :
    replaceWhitespaceRuns (c :: m) = c :: replaceWhitespaceRuns m := by
  rw [replaceWhitespaceRuns, if_neg (by simp [h])]

theorem canonSep_nil : collapseSeparatorRuns [] = [] := by
  rw [collapseSeparatorRuns]

theorem canonSep_cons_sep {c : Char} (h : isWordSeparator c = true) (m : List Char) :
    collapseSeparatorRuns (c :: m)
      = ' ' :: collapseSeparatorRuns (m.dropWhile isWordSeparator) := by
  rw [collapseSeparatorRuns, if_pos h]

theorem canonSep_cons_other {c : Char} (h : isWordSeparator c = false) (m : List Char) :
    collapseSeparatorRuns (c :: m) = c :: collapseSeparatorRuns m := by
  rw [collapseSeparatorRuns, if_neg (by simp [h])]

/-- The two successive global replaces of `toDisplayName` compose to the
collapse of the combined separator runs.  The second component is the
strengthened form the induction needs: the same claim after the whitespace
run following an already-emitted space has been consumed. -/
theorem rep_rep_eq_collapseSep : ∀ n : Nat, ∀ m : List Char, m.length ≤ n →
    replaceWhitespaceRuns (replaceUnderscoreHyphenRuns m) = collapseSeparatorRuns m
    ∧ replaceWhitespaceRuns ((replaceUnderscoreHyphenRuns m).dropWhile Char.isWhitespace)
      = collapseSeparatorRuns (m.dropWhile isWordSeparator) := by
  intro n
  induction n with
  | zero =>
    intro m hm
    have hnil : m = [] := List.eq_nil_of_length_eq_zero (Nat.le_zero.mp hm)
    subst hnil
    simp [repUH_nil, repWS_nil, canonSep_nil]
  | succ n ih =>
    intro m hm
    cases m with
    | nil => simp [repUH_nil, repWS_nil, canonSep_nil]
    | cons d m2 =>
      have hm2 : m2.length ≤ n := by
        simp only [List.length_cons] at hm
        omega
      have hA : replaceWhitespaceRuns (replaceUnderscoreHyphenRuns (d :: m2))
          = collapseSeparatorRuns (d :: m2) := by
        by_cases huh : isUnderscoreOrHyphen d = true
        · have hlen : (m2.dropWhile isUnderscoreOrHyphen).length ≤ n :=
            Nat.le_trans (dropWhile_length_le isUnderscoreOrHyphen m2) hm2
          rw [repUH_cons_sep huh, repWS_cons_ws (by decide),
            (ih _ hlen).2, dropWhile_dropWhile_sub (fun c hc => uh_implies_sep hc),
            canonSep_cons_sep (uh_implies_sep huh)]
        · have huh2 : isUnderscoreOrHyphen d = false := by simpa using huh
          by_cases hws : d.isWhitespace = true
          · rw [repUH_cons_other huh2, repWS_cons_ws hws, (ih m2 hm2).2,
              canonSep_cons_sep (ws_implies_sep hws)]
          · have hws2 : d.isWhitespace = false := by simpa using hws
            rw [repUH_cons_other huh2, repWS_cons_other hws2, (ih m2 hm2).1,
              canonSep_cons_other (notSep_of_neither huh2 hws2)]
      refine ⟨hA, ?_⟩
      by_cases huh : isUnderscoreOrHyphen d = true
      · have hlen : (m2.dropWhile isUnderscoreOrHyphen).length ≤ n :=
          Nat.le_trans (dropWhile_length_le isUnderscoreOrHyphen m2) hm2
        rw [repUH_cons_sep huh, List.dropWhile_cons_of_pos (by decide),
          (ih _ hlen).2, dropWhile_dropWhile_sub (fun c hc => uh_implies_sep hc),
          List.dropWhile_cons_of_pos (uh_implies_sep huh)]
      · have huh2 : isUnderscoreOrHyphen d = false := by simpa using huh
        by_cases hws : d.isWhitespace = true
        · rw [repUH_cons_other huh2, List.dropWhile_cons_of_pos hws, (ih m2 hm2).2,
            List.dropWhile_cons_of_pos (ws_implies_sep hws)]
        · have hws2 : d.isWhitespace = false := by simpa using hws
          rw [repUH_cons_other huh2] at hA
          rw [repUH_cons_other huh2,
            List.dropWhile_cons_of_neg (by simp [hws2]),
            List.dropWhile_cons_of_neg (by simp [notSep_of_neither huh2 hws2])]
          exact hA

theorem splitSpace_ne_nil : ∀ l : List Char, splitSpace l ≠ [] := by
  intro l
  cases l with
  | nil => simp [splitSpace]
  | cons c rest =>
    by_cases hc : c = ' '
    · subst hc
      simp [splitSpace]
    · rw [splitSpace]
      · cases splitSpace rest <;> simp
      · exact hc

theorem splitSpace_cons_space (r : List Char) :
    splitSpace (' ' :: r) = [] :: splitSpace r := rfl

theorem splitSpace_cons_other {c : Char} (hc : c ≠ ' ') {r w : List Char}
    {t : List (List Char)} (hr : splitSpace r = w :: t) :
    splitSpace (c :: r) = (c :: w) :: t := by
  rw [splitSpace]
  · rw [hr]
  · exact hc

theorem splitSpace_append_space : ∀ m : List Char,
    splitSpace (m ++ [' ']) = splitSpace m ++ [[]] := by
  intro m
  induction m with
  | nil => rfl
  | cons c m2 ih =>
    by_cases hc : c = ' '
    · subst hc
      rw [List.cons_append, splitSpace_cons_space, splitSpace_cons_space, ih]
      rfl
    · cases hsp : splitSpace m2 with
      | nil => exact absurd hsp (splitSpace_ne_nil m2)
      | cons w t =>
        rw [List.cons_append,
          splitSpace_cons_other hc (by rw [ih, hsp]; rfl),
          splitSpace_cons_other hc hsp]
        rfl

theorem filterNe_append_empty (s : List (List Char)) :
    ((s ++ [([] : List Char)]).filter fun w => !w.isEmpty)
      = s.filter fun w => !w.isEmpty := by
  simp [List.filter_append]

theorem words_append_spaces : ∀ post : List Char, (∀ c ∈ post, c = ' ') →
    ∀ m : List Char,
      ((splitSpace (m ++ post)).filter fun w => !w.isEmpty)
        = (splitSpace m).filter fun w => !w.isEmpty := by
  intro post
  induction post with
  | nil => intro _ m; rw [List.append_nil]
  | cons d post2 ih =>
    intro hall m
    have hd : d = ' ' := hall d (List.mem_cons_self d post2)
    subst hd
    rw [show m ++ ' ' :: post2 = (m ++ [' ']) ++ post2 by simp,
      ih (fun c hcm => hall c (List.mem_cons_of_mem ' ' hcm)) (m ++ [' ']),
      splitSpace_append_space, filterNe_append_empty]

theorem words_dropWhile_ws : ∀ y : List Char,
    (∀ c ∈ y, c.isWhitespace = true → c = ' ') →
    ((splitSpace (y.dropWhile Char.isWhitespace)).filter fun w => !w.isEmpty)
      = (splitSpace y).filter fun w => !w.isEmpty := by
  intro y
  induction y with
  | nil => intro _; rfl
  | cons c r ih =>
    intro hy
    by_cases hc : c.isWhitespace = true
    · have hsp : c = ' ' := hy c (List.mem_cons_self c r) hc
      subst hsp
      rw [List.dropWhile_cons_of_pos (by decide),
        ih fun d hd hdw => hy d (List.mem_cons_of_mem ' ' hd) hdw,
        splitSpace_cons_space]
      rfl
    · rw [List.dropWhile_cons_of_neg (by simpa using hc)]

theorem words_trimChars (y : List Char)
    (hy : ∀ c ∈ y, c.isWhitespace = true → c = ' ') :
    ((splitSpace (trimChars y)).filter fun w => !w.isEmpty)
      = (splitSpace y).filter fun w => !w.isEmpty := by
  rw [trimChars]
  obtain ⟨post, hz, hpost⟩ :=
    dropTrailing_decomp Char.isWhitespace (y.dropWhile Char.isWhitespace)
  have hzy : ∀ c ∈ y.dropWhile Char.isWhitespace, c.isWhitespace = true → c = ' ' :=
    fun c hcm => hy c (mem_of_mem_dropWhile hcm)
  have hpost2 : ∀ c ∈ post, c = ' ' := by
    intro c hcm
    exact hzy c (by rw [hz]; exact List.mem_append_right _ hcm) (hpost c hcm)
  calc ((splitSpace (dropTrailing Char.isWhitespace
          (y.dropWhile Char.isWhitespace))).filter fun w => !w.isEmpty)
      = (splitSpace (dropTrailing Char.isWhitespace
          (y.dropWhile Char.isWhitespace) ++ post)).filter fun w => !w.isEmpty := by
        rw [words_append_spaces post hpost2]
    _ = (splitSpace (y.dropWhile Char.isWhitespace)).filter fun w => !w.isEmpty := by
        rw [← hz]
    _ = (splitSpace y).filter fun w => !w.isEmpty := words_dropWhile_ws y hy

theorem canonSep_mem : ∀ l : List Char, ∀ c ∈ collapseSeparatorRuns l,
    c = ' ' ∨ isWordSeparator c = false := by
  intro l
  induction l using collapseSeparatorRuns.induct with
  | case1 => simp [canonSep_nil]
  | case2 c rest hc ih =>
    intro d hd
    rw [canonSep_cons_sep hc] at hd
    rcases List.mem_cons.mp hd with rfl | hd
    · exact Or.inl rfl
    · exact ih d hd
  | case3 c rest hc ih =>
    intro d hd
    rw [canonSep_cons_other (by simpa using hc)] at hd
    rcases List.mem_cons.mp hd with rfl | hd
    · exact Or.inr (by simpa using hc)
    · exact ih d hd

theorem splitWordRuns_nil : splitWordRuns [] = [] := by
  rw [splitWordRuns]

theorem splitWordRuns_cons_sep {c : Char} (h : isWordSeparator c = true) (m : List Char) :
    splitWordRuns (c :: m) = splitWordRuns m := by
  rw [splitWordRuns, if_pos h]

theorem splitWordRuns_cons_other {c : Char} (h : isWordSeparator c = false) (m : List Char) :
    splitWordRuns (c :: m)
      = (c :: m.takeWhile fun d => !isWordSeparator d)
        :: splitWordRuns (m.dropWhile fun d => !isWordSeparator d) := by
  rw [splitWordRuns, if_neg (by simp [h])]

theorem splitWordRuns_dropWhile_sep : ∀ l : List Char,
    splitWordRuns (l.dropWhile isWordSeparator) = splitWordRuns l := by
  intro l
  induction l with
  | nil => rfl
  | cons d r ih =>
    by_cases hd : isWordSeparator d = true
    · rw [List.dropWhile_cons_of_pos hd, ih, splitWordRuns_cons_sep hd]
    · rw [List.dropWhile_cons_of_neg (by simpa using hd)]

/-- The words of the canonical separator collapse are exactly the maximal
non-separator runs.  The first two components describe the head group of the
split, the third is the claim itself. -/
theorem splitSpace_canonSep_words : ∀ l : List Char,
    (∃ t0, splitSpace (collapseSeparatorRuns l)
        = (l.takeWhile fun d => !isWordSeparator d) :: t0
      ∧ (t0.filter fun w => !w.isEmpty)
        = splitWordRuns (l.dropWhile fun d => !isWordSeparator d))
    ∧ ((splitSpace (collapseSeparatorRuns l)).filter fun w => !w.isEmpty)
      = splitWordRuns l := by
  intro l
  induction l using collapseSeparatorRuns.induct with
  | case1 =>
    rw [canonSep_nil]
    refine ⟨⟨[], by simp [splitSpace], by simp [splitWordRuns_nil]⟩, ?_⟩
    simp [splitSpace, splitWordRuns_nil]
  | case2 c rest hc ih =>
    rw [canonSep_cons_sep hc, splitSpace_cons_space]
    have hthird : ((splitSpace (collapseSeparatorRuns
        (rest.dropWhile isWordSeparator))).filter fun w => !w.isEmpty)
        = splitWordRuns rest := by
      rw [ih.2, splitWordRuns_dropWhile_sep]
    constructor
    · refine ⟨splitSpace (collapseSeparatorRuns (rest.dropWhile isWordSeparator)),
        ?_, ?_⟩
      · rw [List.takeWhile_cons_of_neg (by simp [hc])]
      · rw [hthird, List.dropWhile_cons_of_neg (by simp [hc]),
          splitWordRuns_cons_sep hc]
    · rw [List.filter_cons]
      simp only [List.isEmpty_nil, Bool.not_true, Bool.false_eq_true, if_false]
      rw [hthird, splitWordRuns_cons_sep hc]
  | case3 c rest hc ih =>
    have hc2 : isWordSeparator c = false := by simpa using hc
    obtain ⟨⟨t0, hhead, htail⟩, hthird⟩ := ih
    rw [canonSep_cons_other hc2, splitSpace_cons_other (notSep_ne_space hc2) hhead]
    constructor
    · refine ⟨t0, ?_, ?_⟩
      · rw [List.takeWhile_cons_of_pos (by simp [hc2])]
      · rw [htail, List.dropWhile_cons_of_pos (by simp [hc2])]
    · rw [List.filter_cons]
      simp only [List.isEmpty_cons, Bool.not_false, if_true]
      rw [htail, splitWordRuns_cons_other hc2]

/-- C3 core: the code's replace/replace/trim/split/filter chain extracts
exactly the maximal non-separator runs. -/
theorem displayName_words_eq (l : List Char) :
    ((splitSpace (trimChars (replaceWhitespaceRuns
        (replaceUnderscoreHyphenRuns l)))).filter fun w => !w.isEmpty)
      = splitWordRuns l := by
  rw [(rep_rep_eq_collapseSep l.length l le_rfl).1,
    words_trimChars _ (fun c hcm hws => by
      rcases canonSep_mem l c hcm with h | h
      · exact h
      · rw [ws_implies_sep hws] at h
        cases h),
    (splitSpace_canonSep_words l).2]

/-- C3: `toDisplayName` computes exactly what the specification describes
(`toDisplayNameSpec`: split on runs of hyphen/underscore/whitespace, discard
empty words, capitalize each word, lowercase the rest, join with single
spaces, fallback "Snail Plugin"), and
`toDisplayName "my_cool-plugin" = "My Cool Plugin"`. -/
theorem toDisplayName_meets_spec :
    (∀ s : String, toDisplayName s = toDisplayNameSpec s)
    ∧ toDisplayName "my_cool-plugin" = "My Cool Plugin" := by
  constructor
  · intro s
    rw [toDisplayName, toDisplayNameSpec]
    simp only [displayName_words_eq]
  · simp [toDisplayName, trimChars, dropTrailing, replaceWhitespaceRuns,
      replaceUnderscoreHyphenRuns, isUnderscoreOrHyphen, splitSpace, capitalizeWord,
      List.intercalate, List.intersperse]

/-! ## Claim C4: the destination guard -/

/-- C4: `ensureDirectoryIsEmpty` succeeds exactly on an absent path or an
existing empty directory, and fails with a `DestinationError` exactly
otherwise (an existing non-directory, or an existing directory with at least
one entry — any entry counts).  The function only reads; it performs no
write and never creates the directory (its result type in this model carries
no write trace, mirroring the source's use of `existsSync`/`stat`/`readdir`
only). -/
theorem ensureDirectoryIsEmpty_exact (st : PathState) :
    (ensureDirectoryIsEmpty st = Except.ok ()
      ↔ (st = PathState.absent ∨ st = PathState.existsAsDir []))
    ∧ ((∃ e, ensureDirectoryIsEmpty st = Except.error e ∧ isDestinationError e = true)
      ↔ ¬(st = PathState.absent ∨ st = PathState.existsAsDir [])) := by
  cases st with
  | absent => simp [ensureDirectoryIsEmpty]
  | existsAsFile => simp [ensureDirectoryIsEmpty, isDestinationError]
  | existsAsDir contents =>
    cases contents with
    | nil => simp [ensureDirectoryIsEmpty]
    | cons c t => simp [ensureDirectoryIsEmpty, isDestinationError]

/-! ## Claim C5: unknown placeholders -/

/-- C5 counterexample: with the default (non-strict) Handlebars options the
source uses, a template referencing a placeholder bound to no Context field
does NOT fail: it renders as the empty string and the materialization run
succeeds.  This falsifies the claim that such a template fails with a
`TemplateError`. -/
theorem unknownPlaceholder_cex :
    renderTemplate sampleContext "{{unknownField}}" = Except.ok ""
    ∧ copyTemplateTree sampleContext [("f.hbs", FSTree.file "{{unknownField}}")] ["dest"]
      = ([WriteOp.mkdirRec ["dest"], WriteOp.writeF ["dest", "f"] ""], Except.ok ()) := by
  constructor
  · rfl
  · simp +decide [copyTemplateTree, copyEntries, renderTemplate, renderLoop, joinPath,
      stripTemplateSuffix, lookupField, escapeHtml]

/-- C5 amended: for every context, a template whose placeholder is bound to
no Context field renders that placeholder as the empty string (Handlebars'
non-strict default) and the materialization run succeeds; the placeholder is
silently dropped, not an error. -/
theorem unknownPlaceholder_renders_empty (context : TemplateContext) :
    renderTemplate context "{{unknownField}}" = Except.ok ""
    ∧ copyTemplateTree context [("f.hbs", FSTree.file "{{unknownField}}")] ["dest"]
      = ([WriteOp.mkdirRec ["dest"], WriteOp.writeF ["dest", "f"] ""], Except.ok ()) := by
  constructor
  · rfl
  · simp +decide [copyTemplateTree, copyEntries, renderTemplate, renderLoop, joinPath,
      stripTemplateSuffix, lookupField, escapeHtml]

/-! ## Claim C6: the end-to-end example -/

/-- C6 counterexample: on the specification's example tree, whose template
files are named with the `.tmpl` suffix, the source's walk recognizes no
template (its marker is `.hbs`): `b.txt.tmpl` is copied byte-for-byte under
its unchanged name and no `b.txt` with rendered content is ever written. -/
theorem materialize_example_cex :
    copyTemplateTree sampleContext exampleTreeTmpl ["dest"]
      = ([WriteOp.mkdirRec ["dest"],
          WriteOp.writeF ["dest", "a.txt"] "hello",
          WriteOp.writeF ["dest", "b.txt.tmpl"] "Hi {{projectName}}",
          WriteOp.mkdirRec ["dest", "sub"],
          WriteOp.writeF ["dest", "sub", "c.txt.tmpl"] "{{pluginIcon}}"],
         Except.ok ())
    ∧ WriteOp.writeF ["dest", "b.txt"] "Hi demo"
        ∉ (copyTemplateTree sampleContext exampleTreeTmpl ["dest"]).1 := by
  constructor
  · simp +decide [copyTemplateTree, copyEntries, exampleTreeTmpl, joinPath,
      stripTemplateSuffix]
  · simp +decide [copyTemplateTree, copyEntries, exampleTreeTmpl, joinPath,
      stripTemplateSuffix]

/-- C6 amended: with the marker suffix the source actually uses (`.hbs` in
place of the specification's `.tmpl`), materializing the example tree with
context `{projectName := "demo", pluginIcon := "null", ...}` into an empty
destination produces exactly `a.txt` byte-identical to its source,
`b.txt = "Hi demo"` and `sub/c.txt = "null"`, with the suffix stripped from
every rendered file. -/
theorem materialize_example (pluginName pluginDescription projectSlug : String) :
    copyTemplateTree
        { pluginName := pluginName, pluginDescription := pluginDescription,
          pluginIcon := "null", projectName := "demo", projectSlug := projectSlug }
        exampleTreeHbs ["dest"]
      = ([WriteOp.mkdirRec ["dest"],
          WriteOp.writeF ["dest", "a.txt"] "hello",
          WriteOp.writeF ["dest", "b.txt"] "Hi demo",
          WriteOp.mkdirRec ["dest", "sub"],
          WriteOp.writeF ["dest", "sub", "c.txt"] "null"],
         Except.ok ()) := by
  simp +decide [copyTemplateTree, copyEntries, exampleTreeHbs, joinPath,
    stripTemplateSuffix, renderTemplate, renderLoop, lookupField, escapeHtml,
    escapeHtmlChar]

/-! ## Claim C7: the guard runs before any write -/

/-- C7: running the flow against a non-empty destination directory (as after
a first successful run) fails with the destination error and performs zero
writes: the guard runs before the materializer, so the returned trace is
empty.  The project-name hypothesis records that the run got past input
validation, as any second run of a flow that succeeded once has. -/
theorem secondRun_zero_writes
    (projectNameArg : Option String) (answers : PromptAnswers)
    (cliOptions : CreateOptions) (template : List (String × FSTree))
    (contents : List String) (projectName : String)
    (hne : contents ≠ [])
    (hok : normalizeProjectName (projectNameArg.orElse fun _ => answers.projectName)
      = Except.ok projectName) :
    createProjectFlow projectNameArg answers cliOptions
        (PathState.existsAsDir contents) template
      = ([], Except.error ScaffoldError.destinationNotEmpty) := by
  have hlen : contents.length > 0 := by
    cases contents with
    | nil => exact absurd rfl hne
    | cons c t => simp
  have hguard : ensureDirectoryIsEmpty (PathState.existsAsDir contents)
      = Except.error ScaffoldError.destinationNotEmpty := by
    simp [ensureDirectoryIsEmpty, hlen]
  simp [createProjectFlow, hok, hguard]

/-- C7 witness: a concrete second run against a destination holding one
entry fails with the destination error and performs no write. -/
theorem secondRun_zero_writes_witness :
    createProjectFlow (some "demo") ⟨none, none, none, none⟩ ⟨none, none, none, none⟩
        (PathState.existsAsDir ["package.json"]) []
      = ([], Except.error ScaffoldError.destinationNotEmpty) :=
  secondRun_zero_writes (some "demo") ⟨none, none, none, none⟩ ⟨none, none, none, none⟩
    [] ["package.json"] "demo" (by simp) rfl

/-! ## Claim C9: the icon sentinel -/

/-- C9: an icon supplied on the command line or by prompt whose
case-insensitive form is "null" enters the Context as the literal lowercase
"null"; every other supplied icon value is carried into the Context
unchanged (`src/index.ts:122-126`). -/
theorem pluginIcon_normalized (projectName s : String) (answers : PromptAnswers)
    (cliOptions : CreateOptions)
    (hsupplied : cliOptions.icon = some s
      ∨ (cliOptions.icon = none ∧ answers.pluginIcon = some s)) :
    (buildTemplateContext projectName answers cliOptions).pluginIcon
      = if lowercaseString s = "null" then "null" else s := by
  rcases hsupplied with h | ⟨h1, h2⟩
  · simp [buildTemplateContext, h, Option.orElse]
  · simp [buildTemplateContext, h1, h2, Option.orElse]

/-- C9 witness: the concretely supplied icon "NULL" enters the Context as
the literal "null". -/
theorem pluginIcon_normalized_witness :
    (buildTemplateContext "demo" ⟨none, none, none, none⟩
        ⟨none, none, none, some "NULL"⟩).pluginIcon = "null" := by
  rw [pluginIcon_normalized "demo" "NULL" ⟨none, none, none, none⟩
    ⟨none, none, none, some "NULL"⟩ (Or.inl rfl)]
  rfl

/-! ## Claim C10: the filename transform -/

/-- C10: the destination-name transform removes exactly one trailing `.hbs`
and only from files: `x.hbs.hbs` becomes `x.hbs`, a directory keeps its name
(`d.hbs` stays `d.hbs`, as the concrete walk shows), and a file named
exactly `.hbs` maps to the empty destination name, so its write target is
the destination directory path itself (`path.join` ignores the empty
segment). -/
theorem templateSuffix_stripping :
    stripTemplateSuffix "x.hbs.hbs" = "x.hbs"
    ∧ (∀ name sub, entryDestName (name, FSTree.dir sub) = name)
    ∧ stripTemplateSuffix ".hbs" = ""
    ∧ (∀ context : TemplateContext,
        copyTemplateTree context [(".hbs", FSTree.file "c")] ["out"]
          = ([WriteOp.mkdirRec ["out"], WriteOp.writeF ["out"] "c"], Except.ok ()))
    ∧ (∀ context : TemplateContext,
        copyTemplateTree context [("d.hbs", FSTree.dir [])] ["out"]
          = ([WriteOp.mkdirRec ["out"], WriteOp.mkdirRec ["out", "d.hbs"]],
             Except.ok ())) := by
  refine ⟨by decide, fun name sub => rfl, by decide, fun context => ?_, fun context => ?_⟩
  · simp +decide [copyTemplateTree, copyEntries, renderTemplate, renderLoop, joinPath,
      stripTemplateSuffix]
  · simp +decide [copyTemplateTree, copyEntries, joinPath]

/-! ## Claim C8: each destination path is written at most once -/

/-- C8 counterexample: when two source siblings map to the same destination
name — here the plain file `x` and the template `x.hbs`, which both land on
`dest/x` — the walk writes that path twice, the second write replacing the
first: the claimed monotonic, write-at-most-once behaviour fails. -/
theorem overlappingSiblings_cex :
    (copyTemplateTree sampleContext collidingTree ["dest"]).1
      = [WriteOp.mkdirRec ["dest"],
         WriteOp.writeF ["dest", "x"] "A",
         WriteOp.writeF ["dest", "x"] "B"]
    ∧ ¬ (writeTargets (copyTemplateTree sampleContext collidingTree ["dest"]).1).Nodup := by
  constructor
  · simp +decide [copyTemplateTree, copyEntries, collidingTree, joinPath,
      stripTemplateSuffix, renderTemplate, renderLoop]
  · simp +decide [copyTemplateTree, copyEntries, collidingTree, joinPath,
      stripTemplateSuffix, renderTemplate, renderLoop, writeTargets, List.nodup_cons]

theorem copyTemplateTree_eq (context : TemplateContext)
    (entries : List (String × FSTree)) (destDir : List String) :
    copyTemplateTree context entries destDir
      = (WriteOp.mkdirRec destDir :: (copyEntries context entries destDir).1,
         (copyEntries context entries destDir).2) := by
  rw [copyTemplateTree]

theorem copyEntries_nil (context : TemplateContext) (destDir : List String) :
    copyEntries context [] destDir = ([], Except.ok ()) := by
  simp [copyEntries]

theorem copyEntries_skip (context : TemplateContext) {name : String}
    (h : name = ".DS_Store") (node : FSTree) (rest : List (String × FSTree))
    (destDir : List String) :
    copyEntries context ((name, node) :: rest) destDir
      = copyEntries context rest destDir := by
  rw [copyEntries.eq_def]
  simp [h]

theorem copyEntries_dir_err (context : TemplateContext) {name : String}
    (h : ¬ name = ".DS_Store") (sub rest : List (String × FSTree))
    (destDir : List String) {e : ScaffoldError}
    (he : (copyTemplateTree context sub (joinPath destDir name)).2 = Except.error e) :
    copyEntries context ((name, FSTree.dir sub) :: rest) destDir
      = ((copyTemplateTree context sub (joinPath destDir name)).1, Except.error e) := by
  rw [copyEntries.eq_def]
  simp [h, he]

theorem copyEntries_dir_ok (context : TemplateContext) {name : String}
    (h : ¬ name = ".DS_Store") (sub rest : List (String × FSTree))
    (destDir : List String)
    (he : (copyTemplateTree context sub (joinPath destDir name)).2 = Except.ok ()) :
    copyEntries context ((name, FSTree.dir sub) :: rest) destDir
      = ((copyTemplateTree context sub (joinPath destDir name)).1
          ++ (copyEntries context rest destDir).1,
         (copyEntries context rest destDir).2) := by
  rw [copyEntries.eq_def]
  simp [h, he]

theorem copyEntries_file_hbs_err (context : TemplateContext) {name : String}
    (h1 : ¬ name = ".DS_Store") (h2 : ".hbs".data.isSuffixOf name.data = true)
    (content : String) (rest : List (String × FSTree)) (destDir : List String)
    {e : ScaffoldError} (hr : renderTemplate context content = Except.error e) :
    copyEntries context ((name, FSTree.file content) :: rest) destDir
      = ([], Except.error e) := by
  rw [copyEntries.eq_def]
  simp [h1, h2, hr]

theorem copyEntries_file_hbs_ok (context : TemplateContext) {name : String}
    (h1 : ¬ name = ".DS_Store") (h2 : ".hbs".data.isSuffixOf name.data = true)
    (content : String) (rest : List (String × FSTree)) (destDir : List String)
    {output : String} (hr : renderTemplate context content = Except.ok output) :
    copyEntries context ((name, FSTree.file content) :: rest) destDir
      = (WriteOp.writeF (joinPath destDir (stripTemplateSuffix name)) output
          :: (copyEntries context rest destDir).1,
         (copyEntries context rest destDir).2) := by
  rw [copyEntries.eq_def]
  simp [h1, h2, hr]

theorem copyEntries_file_raw (context : TemplateContext) {name : String}
    (h1 : ¬ name = ".DS_Store") (h2 : ".hbs".data.isSuffixOf name.data = false)
    (content : String) (rest : List (String × FSTree)) (destDir : List String) :
    copyEntries context ((name, FSTree.file content) :: rest) destDir
      = (WriteOp.writeF (joinPath destDir (stripTemplateSuffix name)) content
          :: (copyEntries context rest destDir).1,
         (copyEntries context rest destDir).2) := by
  rw [copyEntries.eq_def]
  simp [h1, h2]

theorem writeTargets_nil : writeTargets [] = [] := rfl

theorem writeTargets_mkdir (d : List String) (ops : List WriteOp) :
    writeTargets (WriteOp.mkdirRec d :: ops) = writeTargets ops := rfl

theorem writeTargets_write (p : List String) (c : String) (ops : List WriteOp) :
    writeTargets (WriteOp.writeF p c :: ops) = p :: writeTargets ops := rfl

theorem writeTargets_append (a b : List WriteOp) :
    writeTargets (a ++ b) = writeTargets a ++ writeTargets b :=
  List.filterMap_append a b _

theorem activeEntries_nil : activeEntries [] = [] := rfl

theorem activeEntries_skip {name : String} (h : name = ".DS_Store") (node : FSTree)
    (rest : List (String × FSTree)) :
    activeEntries ((name, node) :: rest) = activeEntries rest := by
  simp [activeEntries, List.filter_cons, h]

theorem activeEntries_keep {name : String} (h : ¬ name = ".DS_Store") (node : FSTree)
    (rest : List (String × FSTree)) :
    activeEntries ((name, node) :: rest) = (name, node) :: activeEntries rest := by
  simp [activeEntries, List.filter_cons, h]

theorem goodEntries_tail {e : String × FSTree} {rest : List (String × FSTree)}
    (h : GoodEntries (e :: rest)) : GoodEntries rest := by
  obtain ⟨name, node⟩ := e
  cases h with
  | intro _ nodupNames dirNamesNonempty subGood =>
    by_cases hns : name = ".DS_Store"
    · rw [activeEntries_skip hns] at nodupNames dirNamesNonempty subGood
      exact GoodEntries.intro rest nodupNames dirNamesNonempty subGood
    · rw [activeEntries_keep hns] at nodupNames dirNamesNonempty subGood
      refine GoodEntries.intro rest ((List.nodup_cons.mp (by simpa using nodupNames)).2)
        (fun n s hm => dirNamesNonempty n s (List.mem_cons_of_mem _ hm))
        (fun n s hm => subGood n s (List.mem_cons_of_mem _ hm))

theorem goodEntries_head_dir {name : String} {sub rest : List (String × FSTree)}
    (h : GoodEntries ((name, FSTree.dir sub) :: rest)) (hns : ¬ name = ".DS_Store") :
    name ≠ "" ∧ GoodEntries sub := by
  cases h with
  | intro _ nodupNames dirNamesNonempty subGood =>
    rw [activeEntries_keep hns] at dirNamesNonempty subGood
    exact ⟨dirNamesNonempty name sub (List.mem_cons_self _ _),
      subGood name sub (List.mem_cons_self _ _)⟩

theorem goodEntries_head_notmem {name : String} {node : FSTree}
    {rest : List (String × FSTree)}
    (h : GoodEntries ((name, node) :: rest)) (hns : ¬ name = ".DS_Store") :
    entryDestName (name, node) ∉ (activeEntries rest).map entryDestName := by
  cases h with
  | intro _ nodupNames dirNamesNonempty subGood =>
    rw [activeEntries_keep hns, List.map_cons] at nodupNames
    exact (List.nodup_cons.mp nodupNames).1

theorem prefix_refl (l : List String) : l <+: l := ⟨[], List.append_nil l⟩

theorem prefix_of_append_prefix {d m p : List String} (h : (d ++ m) <+: p) :
    d <+: p := by
  obtain ⟨u, hu⟩ := h
  exact ⟨m ++ u, by rw [← hu, List.append_assoc]⟩

theorem prefix_append_len {d p : List String} {a : String} (h : d ++ [a] <+: p) :
    d.length < p.length := by
  obtain ⟨u, hu⟩ := h
  rw [← hu]
  simp

theorem prefix_append_inj {d p : List String} {a b : String}
    (ha : d ++ [a] <+: p) (hb : d ++ [b] <+: p) : a = b := by
  obtain ⟨u, hu⟩ := ha
  obtain ⟨v, hv⟩ := hb
  rw [← hv, List.append_assoc, List.append_assoc] at hu
  have h2 := List.append_cancel_left hu
  simp at h2
  exact h2.1

/-- The write targets of one directory level are `Nodup`, and every target
lies strictly below the destination joined with the destination name of some
non-skipped entry (or is the destination directory itself, for a file whose
stripped name is empty). -/
theorem copyEntries_write_once (context : TemplateContext) : ∀ n : Nat,
    ∀ entries : List (String × FSTree), sizeOf entries ≤ n →
    ∀ destDir : List String, GoodEntries entries →
    (writeTargets (copyEntries context entries destDir).1).Nodup
    ∧ ∀ p ∈ writeTargets (copyEntries context entries destDir).1,
        ∃ t ∈ (activeEntries entries).map entryDestName,
          (destDir ++ [t] <+: p) ∨ (t = "" ∧ p = destDir) := by
  intro n
  induction n with
  | zero =>
    intro entries hsz
    cases entries <;> simp at hsz
  | succ n ih =>
    intro entries hsz destDir hgood
    cases entries with
    | nil =>
      rw [copyEntries_nil]
      simp [writeTargets_nil]
    | cons e rest =>
      obtain ⟨name, node⟩ := e
      have hszrest : sizeOf rest ≤ n := by
        simp at hsz
        omega
      by_cases hns : name = ".DS_Store"
      · rw [copyEntries_skip context hns, activeEntries_skip hns]
        exact ih rest hszrest destDir (goodEntries_tail hgood)
      · have hrest := ih rest hszrest destDir (goodEntries_tail hgood)
        have hnotmem := goodEntries_head_notmem hgood hns
        cases node with
        | dir sub =>
          obtain ⟨hname, hgsub⟩ := goodEntries_head_dir hgood hns
          have hszsub : sizeOf sub ≤ n := by
            simp at hsz
            omega
          have hjoin : joinPath destDir name = destDir ++ [name] := by
            rw [joinPath, if_neg hname]
          have hsub := ih sub hszsub (destDir ++ [name]) hgsub
          have htsub : writeTargets (copyTemplateTree context sub (joinPath destDir name)).1
              = writeTargets (copyEntries context sub (destDir ++ [name])).1 := by
            rw [copyTemplateTree_eq, hjoin, writeTargets_mkdir]
          have hsubpref : ∀ p ∈ writeTargets
              (copyTemplateTree context sub (joinPath destDir name)).1,
              destDir ++ [name] <+: p := by
            intro p hp
            rw [htsub] at hp
            obtain ⟨t, htm, hcase⟩ := hsub.2 p hp
            rcases hcase with hpre | ⟨_, rfl⟩
            · exact prefix_of_append_prefix hpre
            · exact prefix_refl _
          have hmemname : name
              ∈ (activeEntries ((name, FSTree.dir sub) :: rest)).map entryDestName := by
            rw [activeEntries_keep hns, List.map_cons]
            exact List.mem_cons_self _ _
          cases hres : (copyTemplateTree context sub (joinPath destDir name)).2 with
          | error e =>
            rw [copyEntries_dir_err context hns sub rest destDir hres]
            constructor
            · rw [htsub]
              exact hsub.1
            · intro p hp
              exact ⟨name, hmemname, Or.inl (hsubpref p hp)⟩
          | ok u =>
            cases u
            rw [copyEntries_dir_ok context hns sub rest destDir hres, writeTargets_append]
            constructor
            · refine List.Nodup.append (by rw [htsub]; exact hsub.1) hrest.1 ?_
              intro p hpA hpB
              obtain ⟨t2, ht2mem, ht2case⟩ := hrest.2 p hpB
              have hpre1 := hsubpref p hpA
              rcases ht2case with hpre2 | ⟨ht2e, rfl⟩
              · have heq : name = t2 := prefix_append_inj hpre1 hpre2
                rw [← heq] at ht2mem
                exact hnotmem ht2mem
              · exact absurd (prefix_append_len hpre1) (by omega)
            · intro p hp
              rcases List.mem_append.mp hp with hpA | hpB
              · exact ⟨name, hmemname, Or.inl (hsubpref p hpA)⟩
              · obtain ⟨t2, ht2mem, ht2case⟩ := hrest.2 p hpB
                refine ⟨t2, ?_, ht2case⟩
                rw [activeEntries_keep hns, List.map_cons]
                exact List.mem_cons_of_mem _ ht2mem
        | file content =>
          have hmemstrip : stripTemplateSuffix name
              ∈ (activeEntries ((name, FSTree.file content) :: rest)).map entryDestName := by
            rw [activeEntries_keep hns, List.map_cons]
            exact List.mem_cons_self _ _
          have hkey : ∀ output : String,
              (writeTargets (WriteOp.writeF (joinPath destDir (stripTemplateSuffix name))
                  output :: (copyEntries context rest destDir).1)).Nodup
              ∧ ∀ p ∈ writeTargets (WriteOp.writeF
                    (joinPath destDir (stripTemplateSuffix name)) output
                    :: (copyEntries context rest destDir).1),
                  ∃ t ∈ (activeEntries ((name, FSTree.file content) :: rest)).map
                      entryDestName,
                    (destDir ++ [t] <+: p) ∨ (t = "" ∧ p = destDir) := by
            intro output
            rw [writeTargets_write]
            have hnotin : joinPath destDir (stripTemplateSuffix name)
                ∉ writeTargets (copyEntries context rest destDir).1 := by
              intro hin
              obtain ⟨t2, ht2mem, ht2case⟩ := hrest.2 _ hin
              by_cases hdn : stripTemplateSuffix name = ""
              · rw [joinPath, if_pos hdn] at ht2case
                rcases ht2case with hpre2 | ⟨ht2e, _⟩
                · exact absurd (prefix_append_len hpre2) (by omega)
                · refine hnotmem ?_
                  rw [show entryDestName (name, FSTree.file content)
                      = stripTemplateSuffix name from rfl, hdn, ← ht2e]
                  exact ht2mem
              · rw [joinPath, if_neg hdn] at ht2case
                rcases ht2case with hpre2 | ⟨_, hpd⟩
                · have heq : stripTemplateSuffix name = t2 :=
                    prefix_append_inj (prefix_refl _) hpre2
                  refine hnotmem ?_
                  rw [show entryDestName (name, FSTree.file content)
                      = stripTemplateSuffix name from rfl, heq]
                  exact ht2mem
                · have h2 := List.append_cancel_left
                    (hpd.trans (List.append_nil destDir).symm)
                  cases h2
            constructor
            · exact List.nodup_cons.mpr ⟨hnotin, hrest.1⟩
            · intro p hp
              rcases List.mem_cons.mp hp with rfl | hp2
              · refine ⟨stripTemplateSuffix name, hmemstrip, ?_⟩
                by_cases hdn : stripTemplateSuffix name = ""
                · exact Or.inr ⟨hdn, by rw [joinPath, if_pos hdn]⟩
                · refine Or.inl ?_
                  rw [joinPath, if_neg hdn]
              · obtain ⟨t2, ht2mem, ht2case⟩ := hrest.2 p hp2
                refine ⟨t2, ?_, ht2case⟩
                rw [activeEntries_keep hns, List.map_cons]
                exact List.mem_cons_of_mem _ ht2mem
          by_cases hhbs : ".hbs".data.isSuffixOf name.data = true
          · cases hr : renderTemplate context content with
            | error e =>
              rw [copyEntries_file_hbs_err context hns hhbs content rest destDir hr]
              simp [writeTargets_nil]
            | ok output =>
              rw [copyEntries_file_hbs_ok context hns hhbs content rest destDir hr]
              exact hkey output
          · rw [copyEntries_file_raw context hns (Bool.of_not_eq_true hhbs) content rest destDir]
            exact hkey content

/-- C8 amended: during a single materialization pass over a source tree in
which (recursively) no two non-skipped sibling entries map to the same
destination name — and directory names are nonempty, as real `readdir`
output always is — every destination file path is written at most once: the
write targets of the whole pass contain no duplicate, so no file written
earlier in the pass is rewritten or overwritten. -/
theorem materialization_writes_each_path_once (context : TemplateContext)
    (entries : List (String × FSTree)) (destDir : List String)
    (hgood : GoodEntries entries) :
    (writeTargets (copyTemplateTree context entries destDir).1).Nodup := by
  rw [copyTemplateTree_eq, writeTargets_mkdir]
  exact (copyEntries_write_once context (sizeOf entries) entries le_rfl destDir hgood).1

/-- C8 witness: the example `.hbs` tree is well formed and its concrete
materialization writes each destination path exactly once. -/
theorem materialization_writes_each_path_once_witness :
    (writeTargets (copyTemplateTree sampleContext exampleTreeHbs ["dest"]).1).Nodup := by
  apply materialization_writes_each_path_once
  refine GoodEntries.intro _ (by decide) ?_ ?_
  · intro name sub hm
    simp [exampleTreeHbs, activeEntries] at hm
    rcases hm with ⟨rfl, rfl⟩
    decide
  · intro name sub hm
    simp [exampleTreeHbs, activeEntries] at hm
    rcases hm with ⟨rfl, rfl⟩
    refine GoodEntries.intro _ (by decide) ?_ ?_
    · intro n2 s2 hm2
      simp [activeEntries] at hm2
    · intro n2 s2 hm2
      simp [activeEntries] at hm2
